import Mathlib

/-!
Verification of the Intel HEX file checker (record_handler.c,
intel_hex_file_analyzer.c, main.c).

A C string is modelled as the `List Char` of its characters before the NUL
terminator; lines handed to the checker by `fgets` keep their trailing
newline character.  Machine integers are modelled as `Nat`/`Int` with
explicit reductions modulo 2^32 / 2^64 where the C arithmetic can wrap.
Reads of uninitialized memory (the C code leaves `record`'s fields and the
caller's `Error_t` without initializers) are modelled by threading an
explicit `Junk` environment holding the indeterminate values.
-/

namespace HexCheck

/-- The NUL character that terminates every C string. -/
def nulChar : Char := Char.ofNat 0

/-- C `isspace` in the default locale: space, \t, \n, \v, \f, \r. -/
def isSpaceC (c : Char) : Bool := decide (c.toNat = 32 ∨ (9 ≤ c.toNat ∧ c.toNat ≤ 13))

/-- Value of one hexadecimal digit; `none` for a character that is not a hex digit. -/
def hexVal? (c : Char) : Option Nat :=
  if 48 ≤ c.toNat ∧ c.toNat ≤ 57 then some (c.toNat - 48)
  else if 65 ≤ c.toNat ∧ c.toNat ≤ 70 then some (c.toNat - 55)
  else if 97 ≤ c.toNat ∧ c.toNat ≤ 102 then some (c.toNat - 87)
  else none

/-- A character the scanf `%X` conversion accepts as a digit. -/
def isHexDigitC (c : Char) : Bool := (hexVal? c).isSome

/-- Value of a run of hex digits, most significant first. -/
def hexDigitsVal (ds : List Char) : Nat :=
  ds.foldl (fun a c => a * 16 + (hexVal? c).getD 0) 0

/-- scanf `%Ns`: skip whitespace, then read at most `n` non-whitespace
characters; the conversion fails when no character is read.  Returns the
token and the rest of the input. -/
def scanToken (n : Nat) (cs : List Char) : Option (List Char × List Char) :=
  let rest := cs.dropWhile isSpaceC
  let tok := (rest.take n).takeWhile (fun c => ! isSpaceC c)
  if tok.isEmpty then none else some (tok, rest.drop tok.length)

/-- `sscanf(line, ":%2s%4s%2s", byte_count_str, address_str, record_type_str)`
from record_handler.c line 147: the three header tokens when the scan
assigns all three, `none` when it assigns fewer (the `!= 3` case). -/
def triFieldScan (line : List Char) : Option (List Char × List Char × List Char) :=
  match line with
  | [] => none
  | c :: rest =>
    if c = ':' then
      match scanToken 2 rest with
      | none => none
      | some (bcs, r1) =>
        match scanToken 4 r1 with
        | none => none
        | some (ads, r2) =>
          match scanToken 2 r2 with
          | none => none
          | some (rts, _) => some (bcs, ads, rts)
    else none

/-- Reading a plain unsigned hex field: the value of the leading run of hex
digits, failing when there is none.  This is not the full `%X` conversion
(that is `scanHexBody` and its wrappers below); it is the reading of the
fields the record format prescribes, used on the hypothesis side of theorems
to delimit the plain-digit-field regime, and it agrees there with the full
conversion (`scanHexAtC_agrees`, `scanHexTokenC_agrees2`). -/
def scanHexToken (cs : List Char) : Option Nat :=
  let ds := (cs.dropWhile isSpaceC).takeWhile isHexDigitC
  if ds.isEmpty then none else some (hexDigitsVal ds)

/-- As `scanHexToken`, limited to an `n`-character field. -/
def scanHexAt (n : Nat) (cs : List Char) : Option Nat :=
  let rest := cs.dropWhile isSpaceC
  let ds := (rest.take n).takeWhile isHexDigitC
  if ds.isEmpty then none else some (hexDigitsVal ds)

/-- The digits part of a `%X` item: value of the leading hex-digit run,
failing when it is empty. -/
def scanHexDigits (cs : List Char) : Option Nat :=
  if (cs.takeWhile isHexDigitC).isEmpty then none
  else some (hexDigitsVal (cs.takeWhile isHexDigitC))

/-- The number part of a `%X` item after the optional sign, de-facto glibc
semantics: an optional `0x`/`0X` prefix followed by hex digits.  A bare
prefix with no digit (within the field width) converts to 0 — observed
glibc behavior, where the standard's strict prefix-of-a-matching-sequence
reading would make it a matching failure. -/
def scanHexBody (cs : List Char) : Option Nat :=
  match cs with
  | c0 :: c1 :: tail =>
    if c0 = '0' ∧ (c1 = 'x' ∨ c1 = 'X') then
      some (hexDigitsVal (tail.takeWhile isHexDigitC))
    else scanHexDigits (c0 :: c1 :: tail)
  | cs => scanHexDigits cs

/-- The full `sscanf(tok, "%X", &x)` conversion on a token: skip whitespace,
then an optionally signed (optionally `0x`-prefixed) hex number; a leading
minus negates the value in the unsigned type, so the stored `unsigned int`
is the magnitude's two's complement modulo 2^32; a bare sign fails, leaving
the destination untouched. -/
def scanHexTokenC (cs : List Char) : Option Nat :=
  match cs.dropWhile isSpaceC with
  | [] => none
  | c :: w =>
    if c = '-' then (scanHexBody w).map (fun v => (2 ^ 32 - v % 2 ^ 32) % 2 ^ 32)
    else if c = '+' then scanHexBody w
    else scanHexBody (c :: w)

/-- The full `sscanf(p, "%0NX", &x)` conversion at a position inside the
line: as `scanHexTokenC`, with the sign, prefix and digits all counted
against the `n`-character field width (whitespace skipping is not). -/
def scanHexAtC (n : Nat) (cs : List Char) : Option Nat :=
  match (cs.dropWhile isSpaceC).take n with
  | [] => none
  | c :: w =>
    if c = '-' then (scanHexBody w).map (fun v => (2 ^ 32 - v % 2 ^ 32) % 2 ^ 32)
    else if c = '+' then scanHexBody w
    else scanHexBody (c :: w)

/-- `size_t` subtraction `a - b` (64-bit unsigned wraparound). -/
def sizeSub (a b : Nat) : Nat := (a + 2 ^ 64 - b) % 2 ^ 64

/-- Conversion of an unsigned value to `int32_t`: two's complement of the
low 32 bits. -/
def toInt32 (n : Nat) : Int :=
  if n % 2 ^ 32 < 2 ^ 31 then ((n % 2 ^ 32 : Nat) : Int)
  else ((n % 2 ^ 32 : Nat) : Int) - 2 ^ 32

/-- Conversion of an `int32_t` value to `uint32_t` (the usual arithmetic
conversions applied to an `int32 == uint32` comparison). -/
def toUInt32C (x : Int) : Nat := (x % (2 ^ 32 : Int)).toNat

/-- Wraparound of a mathematical integer to the `int32_t` range, the
de-facto behavior of overflowing `int` arithmetic in this program. -/
def wrap32 (x : Int) : Int := (x + 2 ^ 31) % 2 ^ 32 - 2 ^ 31

/-- Stand-ins for the contents of the uninitialized memory `checkRecord`
and `displayRecordInfo` may read: the `record` locals are declared without
initializers, so an sscanf conversion that fails leaves the corresponding
field holding indeterminate bytes, and `record.data` cells the parse loop
does not reach keep their indeterminate heap contents. -/
structure Junk where
  bc : Nat
  ad : Nat
  rt : Nat
  dataCell : Nat → Nat

/-- The five record-type strings accepted by the `strcmp` chain of
record_handler.c lines 153-154. -/
def typeStrings : List (List Char) :=
  [['0', '0'], ['0', '1'], ['0', '2'], ['0', '4'], ['0', '5']]

/-- The record-type token passes the `strcmp` chain. -/
def validType (rts : List Char) : Bool := decide (rts ∈ typeStrings)

/-- The data bytes of the record: `sscanf(line + 9 + (i * 2), "%02X", &record.data[i])`
for `i < record.byte_count`.  The `%X` conversion stores a 4-byte `unsigned
int` through the `uint8_t*`; on the little-endian target the cell ends up
holding the value's low byte (the spill into the following cells is
overwritten by the later iterations).  A failed conversion leaves the
malloc'd cell's indeterminate byte. -/
def recordData (junk : Junk) (line : List Char) (byte_count : Nat) : List Nat :=
  (List.range byte_count).map (fun i =>
    match scanHexAtC 2 (line.drop (9 + 2 * i)) with
    | some v => v % 256
    | none => junk.dataCell i % 256)

/-- `sscanf(line + strlen(line) - 3, "%02X", &checksum_record)`: the stored
`unsigned int` reinterpreted by the `int32_t` destination, so a sign-led
field such as "-F" yields the negative value -15.  `checksum_record` is
initialized to 0, which a failed conversion leaves. -/
def checksumRecord (line : List Char) : Int :=
  toInt32 ((scanHexAtC 2 (line.drop (line.length - 3))).getD 0)

/-- The data-summing loop of record_handler.c lines 193-196, `int32_t`
additions (wrapping where they would overflow). -/
def checksumLoop : List Nat → Int → Int
  | [], a => a
  | d :: data, a => checksumLoop data (wrap32 (a + (d : Int)))

/-- `checkRecord` from record_handler.c lines 127-215.  `line` is the C
string the caller's buffer holds; `junk` gives the contents of the
uninitialized locals.  Returns the `int32_t` error code (always 0..5). -/
def checkRecord (junk : Junk) (line : List Char) : Nat :=
  if line.headD nulChar ≠ ':' then 1
  else
    match triFieldScan line with
    | none => 2
    | some (bcs, ads, rts) =>
      if ! validType rts then 3
      else
        let byte_count := (scanHexTokenC bcs).getD (junk.bc % 2 ^ 32)
        let address := (scanHexTokenC ads).getD (junk.ad % 2 ^ 32)
        let record_type := (scanHexTokenC rts).getD (junk.rt % 2 ^ 32)
        let data_byte := toInt32 (sizeSub line.length 11 / 2)
        if toUInt32C data_byte ≠ byte_count then 4
        else
          let data := recordData junk line byte_count
          let calculated := checksumLoop data
            (toInt32 ((byte_count + address / 256 + address % 256 + record_type) % 2 ^ 32))
          let final := wrap32 (wrap32 (-calculated - 1) + 1) % 256
          if final ≠ checksumRecord line then 5 else 0

/-- The line passes the start-code check of record_handler.c line 141. -/
def passStart (line : List Char) : Bool := decide (line.headD nulChar = ':')

/-- The header tri-field scan assigns three values (line 147). -/
def fieldsOk (line : List Char) : Bool := (triFieldScan line).isSome

/-- The record-type token is one of "00","01","02","04","05" (lines 153-154). -/
def typeOk (line : List Char) : Bool :=
  match triFieldScan line with
  | some (_, _, rts) => validType rts
  | none => false

/-- The observed data-byte count `(strlen(line) - 11) / 2` equals the
declared byte count (line 172), compared as `uint32_t`. -/
def countOk (junk : Junk) (line : List Char) : Bool :=
  match triFieldScan line with
  | some (bcs, _, _) =>
    decide (toUInt32C (toInt32 (sizeSub line.length 11 / 2)) =
      (scanHexTokenC bcs).getD (junk.bc % 2 ^ 32))
  | none => false

/-- The two's-complement checksum computed from the fields equals the parsed
checksum field (line 200). -/
def checksumOk (junk : Junk) (line : List Char) : Bool :=
  match triFieldScan line with
  | some (bcs, ads, rts) =>
    let byte_count := (scanHexTokenC bcs).getD (junk.bc % 2 ^ 32)
    let address := (scanHexTokenC ads).getD (junk.ad % 2 ^ 32)
    let record_type := (scanHexTokenC rts).getD (junk.rt % 2 ^ 32)
    let data := recordData junk line byte_count
    let calculated := checksumLoop data
      (toInt32 ((byte_count + address / 256 + address % 256 + record_type) % 2 ^ 32))
    decide (wrap32 (wrap32 (-calculated - 1) + 1) % 256 = checksumRecord line)
  | none => false

/-- The validator algorithm as the spec words it: `calculated = byte_count +
high_byte(address) + low_byte(address) + record_type + sum(data bytes)`,
then `(-calculated) mod 256`. -/
def specChecksumValue (byte_count address record_type : Nat) (data : List Nat) : Int :=
  (-((byte_count + address / 256 + address % 256 + record_type + data.sum : Nat) : Int)) % 256

/-- `Error_t` from intel_hex_file_analyzer.h. -/
structure Error_t where
  error_code : Nat
  error_line : Nat
  deriving DecidableEq

/-- The scanning loop of `analyzeIntelHexFile` (intel_hex_file_analyzer.c
lines 57-74).  `junks line_of_file` is the stack garbage of that call to
`checkRecord`.  After a failing line the C loop condition still reads one
more line from the file, but the loop body never runs for it. -/
def analyzeGo (junks : Nat → Junk) : List (List Char) → Nat → Error_t → Error_t
  | [], _, error => error
  | l :: rest, line_of_file, error =>
    let code := checkRecord (junks line_of_file) l
    if code ≠ 0 then { error_code := code, error_line := line_of_file }
    else analyzeGo junks rest (line_of_file + 1) { error with error_code := code }

/-- `analyzeIntelHexFile` over the sequence of lines `fgets` yields.  The
returned `Error_t` is the caller's struct after the call; its `error_code`
field is also the function's return value.  On an empty file the loop never
runs and the struct keeps the caller's (uninitialized) contents. -/
def analyzeIntelHexFile (junks : Nat → Junk) (lines : List (List Char))
    (error : Error_t) : Error_t :=
  analyzeGo junks lines 1 error

/-- `strncmp(s, t, n) == 0`: the first `n` characters agree, the end of a
list playing the NUL terminator. -/
def strncmpZero : List Char → List Char → Nat → Bool
  | _, _, 0 => true
  | [], [], _ + 1 => true
  | [], _ :: _, _ + 1 => false
  | _ :: _, [], _ + 1 => false
  | a :: s, b :: t, n + 1 => decide (a = b) && strncmpZero s t n

/-- The literal End-Of-File record text ":00000001FF". -/
def eofPattern : List Char := [':', '0', '0', '0', '0', '0', '0', '0', '1', 'F', 'F']

/-- The occurrence test of intel_hex_file_analyzer.c line 106:
`strncmp(line, ":00000001FF", 11) == 0`. -/
def isEOFRecordLine (line : List Char) : Bool := strncmpZero line eofPattern 11

/-- The locals of `checkEOF` together with the caller's error struct.
`last_line`, `EOF_line` and the struct are uninitialized before the loop;
`found_EOF` is the one local the C initializes (to 0). -/
structure EOFScanState where
  last_line : List Char
  EOF_line : List Char
  found_EOF : Nat
  error_line : Nat
  deriving DecidableEq

/-- The while loop of `checkEOF` (intel_hex_file_analyzer.c lines 101-127). -/
def checkEOFLoop : List (List Char) → Nat → EOFScanState → EOFScanState
  | [], _, st => st
  | l :: rest, line_of_file, st =>
    let st1 := { st with last_line := l }
    let st2 :=
      if isEOFRecordLine l then
        { st1 with
          error_line := if st1.found_EOF = 0 then line_of_file else st1.error_line,
          found_EOF := (st1.found_EOF + 1) % 256,
          EOF_line := l }
      else st1
    checkEOFLoop rest (line_of_file + 1) st2

/-- `checkEOF` (intel_hex_file_analyzer.c lines 92-154).  `init` carries the
indeterminate initial contents of the locals and of the caller's struct.
`found_EOF` is an `int8_t`: `found_EOF += 1` narrows the `int`-width sum
back to `int8_t`, which de facto (implementation-defined, gcc/clang) wraps;
since the counter is only ever tested against 0 and 1, it is modelled as the
occurrence count modulo 256. -/
def checkEOF (init : EOFScanState) (lines : List (List Char)) : Error_t :=
  let st := checkEOFLoop lines 1 { init with found_EOF := 0 }
  if st.found_EOF = 0 then { error_code := 1, error_line := st.error_line }
  else if st.found_EOF = 1 then
    if st.last_line ≠ st.EOF_line then { error_code := 2, error_line := st.error_line }
    else { error_code := 0, error_line := st.error_line }
  else { error_code := 3, error_line := st.error_line }

/-- The decoded header fields `displayRecordInfo` reads. -/
structure DisplayFields where
  byte_count : Nat
  address : Nat
  record_type : Nat
  deriving DecidableEq

/-- Characters a `%X` item's number part consumes: the `0x` prefix when
present, plus the digit run. -/
def hexBodyLen (cs : List Char) : Nat :=
  match cs with
  | c0 :: c1 :: tail =>
    if c0 = '0' ∧ (c1 = 'x' ∨ c1 = 'X') then 2 + (tail.takeWhile isHexDigitC).length
    else (cs.takeWhile isHexDigitC).length
  | cs => (cs.takeWhile isHexDigitC).length

/-- As `scanHexAtC`, also returning the unconsumed input (the sign, prefix
and digits are consumed; a later directive continues right after them). -/
def scanHexAtRestC (n : Nat) (cs : List Char) : Option (Nat × List Char) :=
  let rest := cs.dropWhile isSpaceC
  match rest.take n with
  | [] => none
  | c :: w =>
    if c = '-' then
      (scanHexBody w).map
        (fun v => ((2 ^ 32 - v % 2 ^ 32) % 2 ^ 32, rest.drop (1 + hexBodyLen w)))
    else if c = '+' then
      (scanHexBody w).map (fun v => (v, rest.drop (1 + hexBodyLen w)))
    else
      (scanHexBody (c :: w)).map (fun v => (v, rest.drop (hexBodyLen (c :: w))))

/-- `sscanf(line, ":%02X%04X%02X", &byte_count, &address, &record_type)` of
record_handler.c line 238: conversions stop at the first failure, which
leaves the remaining fields' indeterminate contents in place. -/
def displayHeader (junk : Junk) (line : List Char) : DisplayFields :=
  match line with
  | [] => ⟨junk.bc % 2 ^ 32, junk.ad % 2 ^ 32, junk.rt % 2 ^ 32⟩
  | c :: rest =>
    if c = ':' then
      match scanHexAtRestC 2 rest with
      | none => ⟨junk.bc % 2 ^ 32, junk.ad % 2 ^ 32, junk.rt % 2 ^ 32⟩
      | some (bc, r1) =>
        match scanHexAtRestC 4 r1 with
        | none => ⟨bc, junk.ad % 2 ^ 32, junk.rt % 2 ^ 32⟩
        | some (ad, r2) =>
          match scanHexAtRestC 2 r2 with
          | none => ⟨bc, ad, junk.rt % 2 ^ 32⟩
          | some (rt, _) => ⟨bc, ad, rt⟩
    else ⟨junk.bc % 2 ^ 32, junk.ad % 2 ^ 32, junk.rt % 2 ^ 32⟩

/-- Cell `i` of `record.data` after the display parse loop (lines 242-245):
parsed (low byte of the stored `unsigned int`) when `i < byte_count`,
otherwise the cell's indeterminate heap byte (reading past the populated
cells is undefined behavior in the C and is modelled by the junk
environment). -/
def displayDataCell (junk : Junk) (line : List Char) (byte_count i : Nat) : Nat :=
  if i < byte_count then
    match scanHexAtC 2 (line.drop (9 + 2 * i)) with
    | some v => v % 256
    | none => junk.dataCell i % 256
  else junk.dataCell i % 256

/-- One call of `displayRecordInfo` (record_handler.c lines 226-291), acting
on the static `base_address`: returns the new `base_address` and, for the
extended-address record types, the absolute address the program prints with
"%08X" (the `int32_t` `abs_address` reinterpreted as unsigned). -/
def displayRecordStep (junk : Junk) (line : List Char) (base_address : Int) :
    Int × Option Nat :=
  let f := displayHeader junk line
  let d0 : Int := displayDataCell junk line f.byte_count 0
  let d1 : Int := displayDataCell junk line f.byte_count 1
  if f.record_type = 0x00 then (toInt32 f.address, none)
  else if f.record_type = 0x02 then
    (base_address, some (toUInt32C (wrap32 (base_address + d0 * 0x1000 + d1 * 0x10))))
  else if f.record_type = 0x04 then
    (base_address, some (toUInt32C (wrap32 (base_address + d0 * 0x1000000 + d1 * 0x10000))))
  else (base_address, none)

/-- The scan of `printIntelHexFile` (intel_hex_file_analyzer.c lines
164-182) from a given value of the static `base_address`: the per-line
absolute addresses and the final `base_address`. -/
def displayScanFrom (junks : Nat → Junk) :
    List (List Char) → Nat → Int → List (Option Nat) × Int
  | [], _, base_address => ([], base_address)
  | l :: rest, line_of_file, base_address =>
    let s := displayRecordStep (junks line_of_file) l base_address
    let r := displayScanFrom junks rest (line_of_file + 1) s.1
    (s.2 :: r.1, r.2)

/-- `printIntelHexFile`: the static `base_address` holds its initializer 0
when the program's single display scan starts. -/
def printIntelHexFile (junks : Nat → Junk) (lines : List (List Char)) :
    List (Option Nat) × Int :=
  displayScanFrom junks lines 1 0

/-- All-zero stand-in for indeterminate memory contents. -/
def junk0 : Junk := ⟨0, 0, 0, fun _ => 0⟩

/-- A second stand-in, differing from `junk0` in the `byte_count` garbage. -/
def junk1 : Junk := ⟨1, 0, 0, fun _ => 0⟩

/-- A constant stream of `junk0` call environments. -/
def junks0 : Nat → Junk := fun _ => junk0

/-- A valid Data record, byte count 3, address 0x0030, data 02 33 7A. -/
def lineData : List Char := (":0300300002337A1E\n").toList

/-- A valid Extended Linear Address record with data bytes 00 01. -/
def lineELA : List Char := (":020000040001F9\n").toList

/-- A valid Extended Segment Address record with data bytes 12 00. -/
def lineESA : List Char := (":020000021200EA\n").toList

/-- The End-Of-File record with its line terminator. -/
def lineEOFNL : List Char := (":00000001FF\n").toList

/-- The End-Of-File record as a file's final line without a terminator. -/
def lineEOFBare : List Char := (":00000001FF").toList

/-- A line whose byte-count field "0G" holds a non-hex character. -/
def lineNonHex : List Char := (":0G00000000\n").toList

/-- A line whose byte-count field "GG" makes the `%X` conversion fail, so
that the uninitialized `record.byte_count` decides the verdict. -/
def lineJunkBC : List Char := (":GG000000FF\n").toList

/-- The Data record fixture with its byte-count field changed to 04. -/
def lineBadCount : List Char := (":0400300002337A1E\n").toList

/-- A byte-count-0 record whose checksum field is the sign-led "-F", which
the `%X` conversion parses to the `int32_t` value -15. -/
def lineSigned : List Char := (":00000000-F\n").toList

/-! ### Helper lemmas about the scanf primitives and the integer model -/

theorem hexVal?_getD_lt (c : Char) : (hexVal? c).getD 0 < 16 := by
  unfold hexVal?
  split
  · rename_i h; simp only [Option.getD_some]; omega
  · split
    · rename_i h; simp only [Option.getD_some]; omega
    · split
      · rename_i h; simp only [Option.getD_some]; omega
      · simp

theorem hexFold_lt (ds : List Char) : ∀ a : Nat,
    ds.foldl (fun a c => a * 16 + (hexVal? c).getD 0) a < (a + 1) * 16 ^ ds.length := by
  induction ds with
  | nil => intro a; simp
  | cons c ds ih =>
    intro a
    have h1 := ih (a * 16 + (hexVal? c).getD 0)
    have hdig := hexVal?_getD_lt c
    have h2 : (a * 16 + (hexVal? c).getD 0 + 1) * 16 ^ ds.length ≤
        ((a + 1) * 16) * 16 ^ ds.length :=
      Nat.mul_le_mul_right _ (by omega)
    simp only [List.foldl_cons]
    calc List.foldl (fun a c => a * 16 + (hexVal? c).getD 0) (a * 16 + (hexVal? c).getD 0) ds
        < (a * 16 + (hexVal? c).getD 0 + 1) * 16 ^ ds.length := h1
      _ ≤ ((a + 1) * 16) * 16 ^ ds.length := h2
      _ = (a + 1) * 16 ^ (c :: ds).length := by
          simp [List.length_cons, Nat.pow_succ]; ring

theorem hexDigitsVal_lt (ds : List Char) : hexDigitsVal ds < 16 ^ ds.length := by
  simpa [hexDigitsVal] using hexFold_lt ds 0

theorem scanToken_length {n : Nat} {cs tok rest : List Char}
    (h : scanToken n cs = some (tok, rest)) : tok.length ≤ n := by
  simp only [scanToken] at h
  split at h
  · exact absurd h (by simp)
  · have := congrArg Prod.fst (Option.some.inj h)
    subst this
    calc ((cs.dropWhile isSpaceC).take n |>.takeWhile fun c => ! isSpaceC c).length
        ≤ ((cs.dropWhile isSpaceC).take n).length :=
          (List.takeWhile_sublist _).length_le
      _ ≤ n := by simp [List.length_take]

theorem scanHexToken_lt {cs : List Char} {v : Nat} (h : scanHexToken cs = some v) :
    v < 16 ^ cs.length := by
  simp only [scanHexToken] at h
  split at h
  · exact absurd h (by simp)
  · have hv := Option.some.inj h
    subst hv
    have h1 : ((cs.dropWhile isSpaceC).takeWhile isHexDigitC).length ≤ cs.length :=
      ((List.takeWhile_sublist _).trans (List.dropWhile_sublist _)).length_le
    exact lt_of_lt_of_le (hexDigitsVal_lt _)
      (Nat.pow_le_pow_right (by norm_num) h1)

theorem scanHexAt_lt {n : Nat} {cs : List Char} {v : Nat} (h : scanHexAt n cs = some v) :
    v < 16 ^ n := by
  simp only [scanHexAt] at h
  split at h
  · exact absurd h (by simp)
  · have hv := Option.some.inj h
    subst hv
    have h1 : (((cs.dropWhile isSpaceC).take n).takeWhile isHexDigitC).length ≤ n := by
      calc (((cs.dropWhile isSpaceC).take n).takeWhile isHexDigitC).length
          ≤ ((cs.dropWhile isSpaceC).take n).length := (List.takeWhile_sublist _).length_le
        _ ≤ n := by simp [List.length_take]
    exact lt_of_lt_of_le (hexDigitsVal_lt _) (Nat.pow_le_pow_right (by norm_num) h1)

/-- On a window of at most two characters that starts with a hex digit, the
`%X` number part is the plain digit run (the only `0x`-shaped such window is
"0x"/"0X" itself, which both readings value at 0). -/
theorem scanHexBody_digits {w : List Char} (hlen : w.length ≤ 2)
    (hne : ¬ (w.takeWhile isHexDigitC).isEmpty = true) :
    scanHexBody w = some (hexDigitsVal (w.takeWhile isHexDigitC)) := by
  match w with
  | [] => simp at hne
  | [c0] =>
    unfold scanHexBody scanHexDigits
    dsimp only
    rw [if_neg hne]
  | [c0, c1] =>
    unfold scanHexBody
    dsimp only
    by_cases h0 : c0 = '0' ∧ (c1 = 'x' ∨ c1 = 'X')
    · rw [if_pos h0]
      obtain ⟨h00, h0x⟩ := h0
      subst h00
      have hx : isHexDigitC c1 = false := by
        rcases h0x with h | h <;> subst h <;> decide
      rw [List.takeWhile_cons_of_pos (by decide),
        List.takeWhile_cons_of_neg (by simp [hx])]
      decide
    · rw [if_neg h0]
      unfold scanHexDigits
      rw [if_neg hne]
  | c0 :: c1 :: c2 :: t => simp at hlen

/-- The plain digit-field reading agrees with the full `%X` conversion on
2-character windows. -/
theorem scanHexAtC_agrees {cs : List Char} {v : Nat}
    (h : scanHexAt 2 cs = some v) : scanHexAtC 2 cs = some v := by
  simp only [scanHexAt] at h
  unfold scanHexAtC
  obtain ⟨w, hw⟩ : ∃ w, (cs.dropWhile isSpaceC).take 2 = w := ⟨_, rfl⟩
  rw [hw] at h ⊢
  have hlen : w.length ≤ 2 := by rw [← hw]; simp [List.length_take]
  split at h
  · exact absurd h (by simp)
  · rename_i hne
    have hv := Option.some.inj h
    subst hv
    cases w with
    | nil => simp at hne
    | cons c w' =>
      have hhex : isHexDigitC c = true := by
        by_contra hc
        rw [List.takeWhile_cons_of_neg (by simpa using hc)] at hne
        simp at hne
      have hm : c ≠ '-' := fun he => by rw [he] at hhex; exact absurd hhex (by decide)
      have hp : c ≠ '+' := fun he => by rw [he] at hhex; exact absurd hhex (by decide)
      dsimp only
      rw [if_neg hm, if_neg hp]
      exact scanHexBody_digits hlen hne

/-- The plain digit-field reading agrees with the full `%X` conversion on
tokens of at most two characters. -/
theorem scanHexTokenC_agrees2 {cs : List Char} {v : Nat} (hlen : cs.length ≤ 2)
    (h : scanHexToken cs = some v) : scanHexTokenC cs = some v := by
  simp only [scanHexToken] at h
  unfold scanHexTokenC
  obtain ⟨w, hw⟩ : ∃ w, cs.dropWhile isSpaceC = w := ⟨_, rfl⟩
  rw [hw] at h ⊢
  have hlen2 : w.length ≤ 2 := by
    rw [← hw]
    exact le_trans (List.dropWhile_sublist _).length_le hlen
  split at h
  · exact absurd h (by simp)
  · rename_i hne
    have hv := Option.some.inj h
    subst hv
    cases w with
    | nil => simp at hne
    | cons c w' =>
      have hhex : isHexDigitC c = true := by
        by_contra hc
        rw [List.takeWhile_cons_of_neg (by simpa using hc)] at hne
        simp at hne
      have hm : c ≠ '-' := fun he => by rw [he] at hhex; exact absurd hhex (by decide)
      have hp : c ≠ '+' := fun he => by rw [he] at hhex; exact absurd hhex (by decide)
      dsimp only
      rw [if_neg hm, if_neg hp]
      exact scanHexBody_digits hlen2 hne

/-- When the plain digit-field reading succeeds on a token, so does the full
`%X` conversion (possibly with a different value, e.g. on "0xAB"). -/
theorem scanHexTokenC_isSome {cs : List Char} {v : Nat}
    (h : scanHexToken cs = some v) : (scanHexTokenC cs).isSome = true := by
  simp only [scanHexToken] at h
  unfold scanHexTokenC
  obtain ⟨w, hw⟩ : ∃ w, cs.dropWhile isSpaceC = w := ⟨_, rfl⟩
  rw [hw] at h ⊢
  split at h
  · exact absurd h (by simp)
  · rename_i hne
    cases w with
    | nil => simp at hne
    | cons c w' =>
      have hhex : isHexDigitC c = true := by
        by_contra hc
        rw [List.takeWhile_cons_of_neg (by simpa using hc)] at hne
        simp at hne
      have hm : c ≠ '-' := fun he => by rw [he] at hhex; exact absurd hhex (by decide)
      have hp : c ≠ '+' := fun he => by rw [he] at hhex; exact absurd hhex (by decide)
      dsimp only
      rw [if_neg hm, if_neg hp]
      unfold scanHexBody
      cases w' with
      | nil =>
        unfold scanHexDigits
        dsimp only
        rw [if_neg hne]
        simp
      | cons c1 t =>
        dsimp only
        by_cases h0 : c = '0' ∧ (c1 = 'x' ∨ c1 = 'X')
        · rw [if_pos h0]
          simp
        · rw [if_neg h0]
          unfold scanHexDigits
          rw [if_neg hne]
          simp

theorem triFieldScan_colon {line : List Char} {t : List Char × List Char × List Char}
    (h : triFieldScan line = some t) : line.headD nulChar = ':' := by
  match line with
  | [] => exact absurd h (by simp [triFieldScan])
  | c :: rest =>
    simp only [triFieldScan] at h
    by_cases hc : c = ':'
    · simpa using hc
    · rw [if_neg hc] at h; exact absurd h (by simp)

theorem triFieldScan_lengths {line bcs ads rts : List Char}
    (h : triFieldScan line = some (bcs, ads, rts)) :
    bcs.length ≤ 2 ∧ ads.length ≤ 4 ∧ rts.length ≤ 2 := by
  match line with
  | [] => exact absurd h (by simp [triFieldScan])
  | c :: rest =>
    simp only [triFieldScan] at h
    by_cases hc : c = ':'
    · rw [if_pos hc] at h
      cases h1 : scanToken 2 rest with
      | none => rw [h1] at h; exact absurd h (by simp)
      | some p1 =>
        obtain ⟨t1, r1⟩ := p1
        rw [h1] at h
        dsimp only at h
        cases h2 : scanToken 4 r1 with
        | none => rw [h2] at h; exact absurd h (by simp)
        | some p2 =>
          obtain ⟨t2, r2⟩ := p2
          rw [h2] at h
          dsimp only at h
          cases h3 : scanToken 2 r2 with
          | none => rw [h3] at h; exact absurd h (by simp)
          | some p3 =>
            obtain ⟨t3, r3⟩ := p3
            rw [h3] at h
            dsimp only at h
            simp only [Option.some.injEq, Prod.mk.injEq] at h
            obtain ⟨e1, e2, e3⟩ := h
            subst e1; subst e2; subst e3
            exact ⟨scanToken_length h1, scanToken_length h2, scanToken_length h3⟩
    · rw [if_neg hc] at h
      exact absurd h (by simp)

theorem wrap32_eq_self {x : Int} (h1 : -(2 ^ 31) ≤ x) (h2 : x < 2 ^ 31) :
    wrap32 x = x := by
  unfold wrap32
  norm_num at h1 h2 ⊢
  omega

theorem toInt32_small {n : Nat} (h : n < 2 ^ 31) : toInt32 n = (n : Int) := by
  unfold toInt32
  have hm : n % 2 ^ 32 = n := Nat.mod_eq_of_lt (by omega)
  rw [hm, if_pos h]

theorem toUInt32C_toInt32 (m : Nat) : toUInt32C (toInt32 m) = m % 2 ^ 32 := by
  unfold toUInt32C toInt32
  have hlt : m % 2 ^ 32 < 2 ^ 32 := Nat.mod_lt _ (by norm_num)
  split <;> push_cast <;> norm_num at * <;> omega

theorem checksumLoop_eq (data : List Nat) : ∀ a : Int, 0 ≤ a →
    a + (data.sum : Int) < 2 ^ 31 →
    checksumLoop data a = a + data.sum := by
  induction data with
  | nil => intro a _ _; simp [checksumLoop]
  | cons d data ih =>
    intro a ha hb
    have hsum : ((d :: data).sum : Int) = (d : Int) + (data.sum : Int) := by
      push_cast [List.sum_cons]; ring
    rw [hsum] at hb
    have hd0 : (0 : Int) ≤ (d : Int) := Int.ofNat_nonneg d
    have hs0 : (0 : Int) ≤ (data.sum : Int) := Int.ofNat_nonneg _
    have hw : wrap32 (a + (d : Int)) = a + d :=
      wrap32_eq_self (by omega) (by omega)
    simp only [checksumLoop]
    rw [hw, ih (a + d) (by omega) (by omega), hsum]
    ring

theorem recordData_le {junk : Junk} {line : List Char} {byte_count : Nat} :
    ∀ d ∈ recordData junk line byte_count, d ≤ 255 := by
  intro d hd
  unfold recordData at hd
  simp only [List.mem_map, List.mem_range] at hd
  obtain ⟨i, _, hdef⟩ := hd
  cases h : scanHexAtC 2 (line.drop (9 + 2 * i)) with
  | some v =>
    rw [h] at hdef
    simp only [] at hdef
    have : v % 256 < 256 := Nat.mod_lt _ (by norm_num)
    omega
  | none =>
    rw [h] at hdef
    simp only [] at hdef
    have : junk.dataCell i % 256 < 256 := Nat.mod_lt _ (by norm_num)
    omega

theorem recordData_length (junk : Junk) (line : List Char) (byte_count : Nat) :
    (recordData junk line byte_count).length = byte_count := by
  simp [recordData]

theorem recordData_sum_le (junk : Junk) (line : List Char) (byte_count : Nat) :
    (recordData junk line byte_count).sum ≤ 255 * byte_count := by
  have h := List.sum_le_card_nsmul (recordData junk line byte_count) 255 recordData_le
  simpa [recordData_length, smul_eq_mul, mul_comm] using h

/-- `checkRecord` is the first-match chain of the five stage predicates. -/
theorem checkRecord_chain (junk : Junk) (line : List Char) :
    checkRecord junk line =
      if ¬ passStart line then 1
      else if ¬ fieldsOk line then 2
      else if ¬ typeOk line then 3
      else if ¬ countOk junk line then 4
      else if ¬ checksumOk junk line then 5
      else 0 := by
  unfold checkRecord passStart fieldsOk typeOk countOk checksumOk
  by_cases hc : line.headD nulChar = ':'
  · cases htri : triFieldScan line with
    | none => simp [htri, hc]
    | some t =>
      obtain ⟨bcs, ads, rts⟩ := t
      simp only [htri, hc]
      by_cases hv : validType rts
      · simp only [hv]
        by_cases hcount : toUInt32C (toInt32 (sizeSub line.length 11 / 2)) =
            (scanHexToken bcs).getD (junk.bc % 2 ^ 32)
        · simp [hcount]
        · simp [hcount]
      · simp [hv]
  · rw [List.headD_eq_head?_getD] at hc
    simp [hc]

/-! ### C2 -/

/-- C2 (confirmed): for every input line, `checkRecord` reports exactly one
error code, chosen by a fixed first-match priority: the start-code check
(MissingStartCode, code 1) first, then the tri-field scan (MalformedFields,
2), then the record-type check (InvalidRecordType, 3), then the byte-count
comparison (ByteCountMismatch, 4), then the checksum comparison
(ChecksumMismatch, 5); each later check runs only when every earlier one
passed, a line passing all five yields 0, and a single code is reported. -/
theorem c2_first_match_priority (junk : Junk) (line : List Char) :
    checkRecord junk line =
      if ¬ passStart line then 1
      else if ¬ fieldsOk line then 2
      else if ¬ typeOk line then 3
      else if ¬ countOk junk line then 4
      else if ¬ checksumOk junk line then 5
      else 0 :=
  checkRecord_chain junk line

/-! ### C5 -/

/-- C5 (corrected), counterexample: the line ":0G00000000\n" carries the
non-hex character 'G' in its 2-character byte-count field, yet `checkRecord`
does not fail with MalformedFields (code 2): the `%2s%4s%2s` scan accepts any
non-whitespace characters, the later `%X` conversion of "0G" stops after the
digit 0, and the line is in fact accepted as a valid record (code 0). -/
theorem c5_counterexample :
    hexVal? ('G') = none ∧
    triFieldScan lineNonHex = some (['0', 'G'], ['0', '0', '0', '0'], ['0', '0']) ∧
    checkRecord junk0 lineNonHex = 0 := by
  refine ⟨by decide, by decide, by decide⟩

/-- C5 (corrected), amended claim: for a line beginning with the ':' start
marker, the decoder fails with MalformedFields (code 2) exactly when the
whitespace-delimited `%2s%4s%2s` scan fails to produce three tokens; header
fields containing non-hexadecimal characters are not, by themselves,
rejected at this step. -/
theorem c5_malformed_fields_amended (junk : Junk) (line : List Char)
    (h : line.headD nulChar = ':') :
    (checkRecord junk line = 2 ↔ triFieldScan line = none) := by
  have hp : passStart line = true := by
    rw [List.headD_eq_head?_getD] at h
    simp [passStart, h]
  rw [checkRecord_chain junk line, hp]
  cases htri : triFieldScan line with
  | none =>
    have hf : fieldsOk line = false := by simp [fieldsOk, htri]
    simp [hf]
  | some t =>
    have hf : fieldsOk line = true := by simp [fieldsOk, htri]
    simp only [hf, not_true, Bool.not_eq_true, if_false]
    constructor
    · intro h2
      by_cases ht : typeOk line
      · by_cases hco : countOk junk line
        · by_cases hcs : checksumOk junk line
          · simp [ht, hco, hcs] at h2
          · simp [ht, hco, hcs] at h2
        · simp [ht, hco] at h2
      · simp [ht] at h2
    · intro hn
      exact absurd hn (by simp)

/-- C5 witness: the line ":\n" starts with ':' but its tri-field scan
assigns no token, and `checkRecord` reports code 2 for it. -/
theorem c5_malformed_fields_witness : checkRecord junk0 ((":\n").toList) = 2 :=
  (c5_malformed_fields_amended junk0 ((":\n").toList) (by decide)).mpr (by decide)

/-! ### C6 -/

/-- The `uint32_t` view of `data_byte = (strlen(line) - 11) / 2` equals the
declared byte count exactly when the mathematical `(length - 11) / 2`
(integer division, floor) does. -/
theorem dataByte_eq {len bcv : Nat} (hlen : len < 2 ^ 32) (hbcv : bcv < 256) :
    (toUInt32C (toInt32 (sizeSub len 11 / 2)) = bcv ↔
      ((len : Int) - 11) / 2 = (bcv : Int)) := by
  rcases Nat.lt_or_ge len 11 with h11 | h11
  · have hs : sizeSub len 11 = len + 2 ^ 64 - 11 := by
      unfold sizeSub; apply Nat.mod_eq_of_lt; omega
    set c := (11 - len + 1) / 2 with hc
    have hq : sizeSub len 11 / 2 = 2 ^ 63 - c := by rw [hs]; omega
    have hc1 : 1 ≤ c ∧ c ≤ 6 := by omega
    have hm : (2 ^ 63 - c) % 2 ^ 32 = 2 ^ 32 - c := by omega
    have hlhs : toUInt32C (toInt32 (sizeSub len 11 / 2)) = 2 ^ 32 - c := by
      rw [hq]
      unfold toInt32
      rw [hm, if_neg (by omega)]
      unfold toUInt32C
      push_cast
      omega
    have hrhs : ((len : Int) - 11) / 2 = -(c : Int) := by omega
    rw [hlhs, hrhs]
    omega
  · have hs : sizeSub len 11 = len - 11 := by unfold sizeSub; omega
    have hq : sizeSub len 11 / 2 < 2 ^ 31 := by rw [hs]; omega
    have hm : sizeSub len 11 / 2 % 2 ^ 32 = sizeSub len 11 / 2 :=
      Nat.mod_eq_of_lt (by omega)
    have hlhs : toUInt32C (toInt32 (sizeSub len 11 / 2)) = (len - 11) / 2 := by
      unfold toInt32
      rw [hm, if_pos hq]
      unfold toUInt32C
      rw [hs]
      omega
    rw [hlhs]
    omega

/-- C6 (confirmed): for every line that passes the start-marker, tri-field
and record-type checks and whose byte-count field parses (to `bcv`),
`checkRecord` fails with ByteCountMismatch (code 4) exactly when the
observed data-byte count `(line_length - 11) / 2` — integer division over
the full line length including any terminator — differs from the declared
byte count.  The length bound reflects the program's 100-byte `fgets` line
buffer. -/
theorem c6_byte_count_check (junk : Junk) (line : List Char)
    (bcs ads rts : List Char) (bcv : Nat)
    (htri : triFieldScan line = some (bcs, ads, rts))
    (hty : validType rts = true)
    (hbc : scanHexToken bcs = some bcv)
    (hlen : line.length < 2 ^ 32) :
    (checkRecord junk line = 4 ↔ ((line.length : Int) - 11) / 2 ≠ (bcv : Int)) := by
  have hcolon := triFieldScan_colon htri
  have hp : passStart line = true := by
    rw [List.headD_eq_head?_getD] at hcolon
    simp [passStart, hcolon]
  have hf : fieldsOk line = true := by simp [fieldsOk, htri]
  have ht : typeOk line = true := by simp [typeOk, htri, hty]
  have hbound : bcv < 256 := by
    have hl := (triFieldScan_lengths htri).1
    calc bcv < 16 ^ bcs.length := scanHexToken_lt hbc
      _ ≤ 16 ^ 2 := Nat.pow_le_pow_right (by norm_num) hl
      _ = 256 := by norm_num
  have hbcC : scanHexTokenC bcs = some bcv :=
    scanHexTokenC_agrees2 (triFieldScan_lengths htri).1 hbc
  rw [checkRecord_chain junk line, hp, hf, ht]
  have hcount : countOk junk line =
      decide (toUInt32C (toInt32 (sizeSub line.length 11 / 2)) = bcv) := by
    simp [countOk, htri, hbcC]
  by_cases hc : toUInt32C (toInt32 (sizeSub line.length 11 / 2)) = bcv
  · have heq : ((line.length : Int) - 11) / 2 = (bcv : Int) :=
      (dataByte_eq hlen hbound).mp hc
    by_cases hcs : checksumOk junk line <;> simp [hcount, hc, hcs, heq]
  · have hne : ¬ ((line.length : Int) - 11) / 2 = (bcv : Int) :=
      fun he => hc ((dataByte_eq hlen hbound).mpr he)
    simp [hcount, hc, hne]

/-- C6 witness: the fixture with declared byte count 04 but three data bytes
present is reported with code 4. -/
theorem c6_byte_count_witness : checkRecord junk0 lineBadCount = 4 :=
  (c6_byte_count_check junk0 lineBadCount (['0', '4']) (['0', '0', '3', '0'])
    (['0', '0']) 4 (by decide) (by decide) (by decide) (by decide)).mpr (by decide)

/-! ### C1 -/

/-- The C checksum computation — `uint32_t` field sum assigned to `int32_t`,
data loop, `(~calculated + 1) & 0xFF` — equals the spec's
`(-calculated) mod 256` when the parsed fields are in their ranges. -/
theorem checksum_final_eq (bcv adv rtv : Nat) (data : List Nat)
    (hb : bcv < 256) (ha : adv < 65536) (hr : rtv < 256)
    (hd : data.sum ≤ 255 * bcv) :
    wrap32 (wrap32 (-(checksumLoop data
        (toInt32 ((bcv + adv / 256 + adv % 256 + rtv) % 2 ^ 32))) - 1) + 1) % 256 =
    specChecksumValue bcv adv rtv data := by
  set S := bcv + adv / 256 + adv % 256 + rtv with hS
  have hSb : S ≤ 1020 := by
    have h1 : adv / 256 ≤ 255 := by omega
    omega
  have hS1 : S % 2 ^ 32 = S := Nat.mod_eq_of_lt (by omega)
  have hS2 : toInt32 (S % 2 ^ 32) = (S : Int) := by
    rw [hS1]; exact toInt32_small (by omega)
  rw [hS2]
  have hsum : data.sum ≤ 65025 := by omega
  have hloop : checksumLoop data (S : Int) = (S : Int) + data.sum :=
    checksumLoop_eq data S (by positivity) (by omega)
  rw [hloop]
  have hw1 : wrap32 (-((S : Int) + data.sum) - 1) = -((S : Int) + data.sum) - 1 :=
    wrap32_eq_self (by omega) (by omega)
  rw [hw1]
  have hw2 : wrap32 (-((S : Int) + data.sum) - 1 + 1) = -((S : Int) + data.sum) := by
    have he : -((S : Int) + data.sum) - 1 + 1 = -((S : Int) + data.sum) := by ring
    rw [he]
    exact wrap32_eq_self (by omega) (by omega)
  rw [hw2]
  unfold specChecksumValue
  rw [hS]
  congr 1

/-- C1 (corrected), counterexample: the line ":00000001FF" as a file's final
line without a terminator.  It decodes to byte count 0, address 0, type 01
with no data; the spec's two's-complement value is 0xFF = 255 and the
record's trailing checksum field is the final two characters "FF", also 255,
so by the claim the record is valid — but `checkRecord` parses the checksum
from `line + strlen(line) - 3`, reads "1F", and reports ChecksumMismatch
(code 5). -/
theorem c1_counterexample :
    triFieldScan lineEOFBare = some (['0', '0'], ['0', '0', '0', '0'], ['0', '1']) ∧
    specChecksumValue 0 0 1 (recordData junk0 lineEOFBare 0) = 255 ∧
    lineEOFBare.drop (lineEOFBare.length - 2) = [('F'), ('F')] ∧
    hexDigitsVal [('F'), ('F')] = 255 ∧
    checkRecord junk0 lineEOFBare = 5 :=
  ⟨by decide, by decide, by decide, by decide, by decide⟩

/-- A record-type token accepted by the `strcmp` chain always converts under
`%X`, to a value below 256. -/
theorem validType_scanHexC {rts : List Char} (h : validType rts = true) :
    ∃ v, scanHexTokenC rts = some v ∧ v < 256 := by
  have hmem : rts ∈ typeStrings := by simpa [validType] using h
  simp only [typeStrings, List.mem_cons, List.not_mem_nil, or_false] at hmem
  rcases hmem with h' | h' | h' | h' | h'
  · subst h'; exact ⟨0, by decide, by decide⟩
  · subst h'; exact ⟨1, by decide, by decide⟩
  · subst h'; exact ⟨2, by decide, by decide⟩
  · subst h'; exact ⟨4, by decide, by decide⟩
  · subst h'; exact ⟨5, by decide, by decide⟩

/-- C1 (corrected), amended claim: for every record that reaches the
checksum step (start marker, tri-field scan, record type and byte count all
pass, with `%X`-parsed fields `bcv`, `adv`, `rtv` in their in-range regime
`bcv < 256`, `adv < 65536`), validation computes `byte_count +
high_byte(address) + low_byte(address) + record_type + sum of data bytes`,
takes `(-calculated) mod 256`, and fails with ChecksumMismatch (code 5)
exactly when this value differs from the value the `%X` conversion parses
starting three characters before the end of the line — which is the record's
trailing checksum field when the line ends with a single terminator
character, but not for a terminator-less final line, and which can even be
negative for a sign-led field such as "-F"; otherwise the record is valid
(code 0). -/
theorem c1_checksum_step_amended (junk : Junk) (line : List Char)
    (bcs ads rts : List Char) (bcv adv rtv : Nat)
    (htri : triFieldScan line = some (bcs, ads, rts))
    (hty : validType rts = true)
    (hbc : scanHexTokenC bcs = some bcv)
    (had : scanHexTokenC ads = some adv)
    (hrt : scanHexTokenC rts = some rtv)
    (hbound : bcv < 256)
    (habound : adv < 65536)
    (hcount : toUInt32C (toInt32 (sizeSub line.length 11 / 2)) = bcv) :
    checkRecord junk line =
      if specChecksumValue bcv adv rtv (recordData junk line bcv) ≠
          (checksumRecord line : Int)
      then 5 else 0 := by
  have hcolon := triFieldScan_colon htri
  have hp : passStart line = true := by
    rw [List.headD_eq_head?_getD] at hcolon
    simp [passStart, hcolon]
  have hf : fieldsOk line = true := by simp [fieldsOk, htri]
  have ht : typeOk line = true := by simp [typeOk, htri, hty]
  have hrbound : rtv < 256 := by
    obtain ⟨v, hv, hvlt⟩ := validType_scanHexC hty
    have hveq : v = rtv := Option.some.inj (hv.symm.trans hrt)
    omega
  have hco : countOk junk line = true := by
    simp [countOk, htri, hbc, hcount]
  have hfinal := checksum_final_eq bcv adv rtv (recordData junk line bcv)
    hbound habound hrbound (recordData_sum_le junk line bcv)
  have hcs : checksumOk junk line =
      decide (specChecksumValue bcv adv rtv (recordData junk line bcv) =
        (checksumRecord line : Int)) := by
    simp only [checksumOk, htri, hbc, had, hrt, Option.getD_some]
    rw [hfinal]
  rw [checkRecord_chain junk line, hp, hf, ht, hco, hcs]
  by_cases h : specChecksumValue bcv adv rtv (recordData junk line bcv) =
      (checksumRecord line : Int)
  · simp [h]
  · simp [h]

/-- C1 witness: the Data record fixture reaches the checksum step, its
two's-complement value 0x1E matches the parsed checksum field, and
`checkRecord` accepts it; the sign-led fixture ":00000000-F\n" parses
checksum -15, mismatching the computed 0, and is rejected with code 5. -/
theorem c1_checksum_step_witness :
    checkRecord junk0 lineData = 0 ∧ checkRecord junk0 lineSigned = 5 := by
  constructor
  · have h := c1_checksum_step_amended junk0 lineData (['0', '3'])
      (['0', '0', '3', '0']) (['0', '0']) 3 48 0
      (by decide) (by decide) (by decide) (by decide) (by decide)
      (by decide) (by decide) (by decide)
    rw [h]
    decide
  · have h := c1_checksum_step_amended junk0 lineSigned (['0', '0'])
      (['0', '0', '0', '0']) (['0', '0']) 0 0 0
      (by decide) (by decide) (by decide) (by decide) (by decide)
      (by decide) (by decide) (by decide)
    rw [h]
    decide

/-! ### C9 -/

/-- When every data cell the byte count demands parses, the decoded data do
not depend on the indeterminate memory. -/
theorem recordData_indep {line : List Char} {bc : Nat}
    (h : ∀ i, i < bc → (scanHexAt 2 (line.drop (9 + 2 * i))).isSome = true)
    (j1 j2 : Junk) : recordData j1 line bc = recordData j2 line bc := by
  unfold recordData
  apply List.map_congr_left
  intro i hi
  rw [List.mem_range] at hi
  obtain ⟨v, hv⟩ := Option.isSome_iff_exists.mp (h i hi)
  rw [scanHexAtC_agrees hv]

/-- C9 (corrected), counterexample: `checkRecord` is not a deterministic
function of its input line alone.  On ":GG000000FF\n" the byte-count field
"GG" makes the `%X` conversion fail, so the verdict reads the uninitialized
`record.byte_count`: two calls on the identical line, whose stack garbage
holds 0 and 1 respectively, return different codes (5 versus 4). -/
theorem c9_counterexample :
    checkRecord junk0 lineJunkBC = 5 ∧ checkRecord junk1 lineJunkBC = 4 :=
  ⟨by decide, by decide⟩

/-- C9 (corrected), amended claim: `checkRecord` keeps no state between
calls — in this model a call sees nothing but its input line and its own
uninitialized locals, so the result at any position in a scan is independent
of all previously processed lines — and on every line whose header fields
and demanded data cells all convert under `%X`, the verdict is also
independent of the uninitialized locals: two calls on such identical input
yield identical results.  Lines with failing conversions read indeterminate
stack memory (undefined behavior in the C) and are exempted. -/
theorem c9_determinism_amended (line : List Char)
    (bcs ads rts : List Char) (bcv adv : Nat)
    (htri : triFieldScan line = some (bcs, ads, rts))
    (hbc : scanHexToken bcs = some bcv)
    (had : scanHexToken ads = some adv)
    (hdata : ∀ i, i < bcv → (scanHexAt 2 (line.drop (9 + 2 * i))).isSome = true) :
    ∀ j1 j2 : Junk, checkRecord j1 line = checkRecord j2 line := by
  intro j1 j2
  have hbcC : scanHexTokenC bcs = some bcv :=
    scanHexTokenC_agrees2 (triFieldScan_lengths htri).1 hbc
  obtain ⟨adw, hadw⟩ := Option.isSome_iff_exists.mp (scanHexTokenC_isSome had)
  rw [checkRecord_chain j1 line, checkRecord_chain j2 line]
  have hcount : ∀ j : Junk, countOk j line =
      decide (toUInt32C (toInt32 (sizeSub line.length 11 / 2)) = bcv) := by
    intro j; simp [countOk, htri, hbcC]
  by_cases ht : typeOk line
  · have hv : validType rts = true := by
      have := ht
      simp [typeOk, htri] at this
      exact this
    obtain ⟨rtv, hrt, _⟩ := validType_scanHexC hv
    have hdata_eq : recordData j1 line bcv = recordData j2 line bcv :=
      recordData_indep hdata j1 j2
    have hcs : checksumOk j1 line = checksumOk j2 line := by
      simp only [checksumOk, htri, hbcC, hadw, hrt, Option.getD_some, hdata_eq]
    rw [hcount j1, hcount j2, hcs]
  · simp [ht]

/-- C9 witness: on the well-formed Data record fixture the verdict is the
same for two different contents of the uninitialized locals. -/
theorem c9_determinism_witness : checkRecord junk0 lineData = checkRecord junk1 lineData :=
  c9_determinism_amended lineData (['0', '3']) (['0', '0', '3', '0']) (['0', '0'])
    3 48 (by decide) (by decide) (by decide) (by decide) junk0 junk1

/-! ### C3 -/

/-- The analyzer loop stops on the first failing line: when every line of
`pre` passes and `l` fails, the result names `l`'s code and position and is
independent of everything after `l`. -/
theorem analyzeGo_first_fail (junks : Nat → Junk) (pre : List (List Char))
    (l : List Char) (rest : List (List Char)) : ∀ (n : Nat) (err : Error_t),
    (∀ i (h : i < pre.length), checkRecord (junks (n + i)) (pre.get ⟨i, h⟩) = 0) →
    checkRecord (junks (n + pre.length)) l ≠ 0 →
    analyzeGo junks (pre ++ l :: rest) n err =
      { error_code := checkRecord (junks (n + pre.length)) l,
        error_line := n + pre.length } := by
  induction pre with
  | nil =>
    intro n err _ hl
    simp only [List.nil_append, analyzeGo]
    rw [if_pos (by simpa using hl)]
    simp
  | cons p pre ih =>
    intro n err hpre hl
    have hp0 : checkRecord (junks n) p = 0 := by
      have h := hpre 0 (by simp)
      simpa using h
    simp only [List.cons_append, analyzeGo, List.append_eq]
    rw [hp0, if_neg (by simp)]
    have hpre' : ∀ i (h : i < pre.length),
        checkRecord (junks ((n + 1) + i)) (pre.get ⟨i, h⟩) = 0 := by
      intro i h
      have h2 := hpre (i + 1) (by simpa using Nat.succ_lt_succ h)
      have hidx : n + (i + 1) = (n + 1) + i := by omega
      rw [hidx] at h2
      exact h2
    have hl' : checkRecord (junks ((n + 1) + pre.length)) l ≠ 0 := by
      have hidx : (n + 1) + pre.length = n + (p :: pre).length := by
        simp [List.length_cons]; omega
      rw [hidx]
      exact hl
    rw [ih (n + 1) { error_code := 0, error_line := err.error_line } hpre' hl']
    have hidx : (n + 1) + pre.length = n + (p :: pre).length := by
      simp [List.length_cons]; omega
    rw [hidx]

/-- When every line passes, the analyzer loop ends with code 0 and the
caller's `error_line` untouched (for a nonempty input). -/
theorem analyzeGo_all_zero (junks : Nat → Junk) : ∀ (lines : List (List Char))
    (n : Nat) (err : Error_t),
    (∀ i (h : i < lines.length), checkRecord (junks (n + i)) (lines.get ⟨i, h⟩) = 0) →
    lines ≠ [] →
    analyzeGo junks lines n err = { error_code := 0, error_line := err.error_line } := by
  intro lines
  induction lines with
  | nil => intro n err _ hne; exact absurd rfl hne
  | cons l rest ih =>
    intro n err hall hne
    have h0 : checkRecord (junks n) l = 0 := by
      have h := hall 0 (by simp)
      simpa using h
    simp only [analyzeGo]
    rw [h0, if_neg (by simp)]
    cases rest with
    | nil => simp [analyzeGo]
    | cons r rs =>
      have hall' : ∀ i (h : i < (r :: rs).length),
          checkRecord (junks ((n + 1) + i)) ((r :: rs).get ⟨i, h⟩) = 0 := by
        intro i h
        have h2 := hall (i + 1) (by simpa using Nat.succ_lt_succ h)
        have hidx : n + (i + 1) = (n + 1) + i := by omega
        rw [hidx] at h2
        exact h2
      rw [ih (n + 1) { error_code := 0, error_line := err.error_line } hall' (by simp)]

/-- C3 (corrected), counterexample: on an empty file the while loop of
`analyzeIntelHexFile` never runs, `error->error_code` is never written, and
the function returns whatever the caller's uninitialized struct already held
(here 7) — not the success code 0 the claim promises when every line
passes. -/
theorem c3_counterexample :
    (analyzeIntelHexFile junks0 [] { error_code := 7, error_line := 9 }).error_code = 7 :=
  rfl

/-- C3 (corrected), amended claim: the Pass A scan is fail-fast — for every
sequence in which the lines of `pre` all pass and line `1 + pre.length` is
the first to fail, the scan reports that line's error code with its 1-based
line number, and the result is independent of every line after it; if every
line of a *nonempty* sequence passes, it reports success (error code 0).
On an empty sequence the caller's (uninitialized) error struct is returned
unchanged instead. -/
theorem c3_fail_fast_amended :
    (∀ (junks : Nat → Junk) (pre : List (List Char)) (l : List Char)
        (rest : List (List Char)) (err : Error_t),
      (∀ i (h : i < pre.length), checkRecord (junks (1 + i)) (pre.get ⟨i, h⟩) = 0) →
      checkRecord (junks (1 + pre.length)) l ≠ 0 →
      analyzeIntelHexFile junks (pre ++ l :: rest) err =
        { error_code := checkRecord (junks (1 + pre.length)) l,
          error_line := 1 + pre.length }) ∧
    (∀ (junks : Nat → Junk) (lines : List (List Char)) (err : Error_t),
      (∀ i (h : i < lines.length), checkRecord (junks (1 + i)) (lines.get ⟨i, h⟩) = 0) →
      lines ≠ [] →
      analyzeIntelHexFile junks lines err = { error_code := 0, error_line := err.error_line }) ∧
    (∀ (junks : Nat → Junk) (err : Error_t),
      analyzeIntelHexFile junks [] err = err) := by
  refine ⟨?_, ?_, ?_⟩
  · intro junks pre l rest err hpre hl
    exact analyzeGo_first_fail junks pre l rest 1 err hpre hl
  · intro junks lines err hall hne
    exact analyzeGo_all_zero junks lines 1 err hall hne
  · intro junks err
    rfl

/-- C3 witness: a failure on line 2 is reported as (code 4, line 2) with a
line after it present, and an all-passing two-line file reports code 0. -/
theorem c3_fail_fast_witness :
    analyzeIntelHexFile junks0 [lineData, lineBadCount, lineEOFNL]
      { error_code := 7, error_line := 9 } = { error_code := 4, error_line := 2 } ∧
    analyzeIntelHexFile junks0 [lineData, lineEOFNL]
      { error_code := 7, error_line := 9 } = { error_code := 0, error_line := 9 } := by
  constructor
  · have h := c3_fail_fast_amended.1 junks0 [lineData] lineBadCount [lineEOFNL]
      { error_code := 7, error_line := 9 }
      (by
        intro i hi
        have h2 : i < 1 := by simpa using hi
        interval_cases i
        exact (by decide : checkRecord (junks0 (1 + 0)) lineData = 0))
      (by decide)
    simp only [List.cons_append, List.nil_append, List.length_cons,
      List.length_nil] at h
    rw [h]
    decide
  · have h := c3_fail_fast_amended.2.1 junks0 [lineData, lineEOFNL]
      { error_code := 7, error_line := 9 }
      (by
        intro i hi
        have h2 : i < 2 := by simpa using hi
        interval_cases i
        · exact (by decide : checkRecord (junks0 (1 + 0)) lineData = 0)
        · exact (by decide : checkRecord (junks0 (1 + 1)) lineEOFNL = 0))
      (by simp)
    rw [h]

/-! ### C4 and C10 -/

/-- A first-occurrence index found from start 0 is found, shifted by one,
from start 1. -/
theorem findIdxOneBased {lines : List (List Char)} {k : Nat}
    (h : lines.findIdx? isEOFRecordLine = some k) :
    lines.findIdx? isEOFRecordLine 1 = some (k + 1) := by
  have h2 : lines.findIdx? isEOFRecordLine (0 + 1) =
      (lines.findIdx? isEOFRecordLine 0).map fun i => i + 1 := List.findIdx?_succ
  rw [h] at h2
  simpa using h2

/-- The occurrence count after the `checkEOF` loop: the `int8_t` counter
holds the count modulo 256. -/
theorem checkEOFLoop_found (lines : List (List Char)) : ∀ (n : Nat) (st : EOFScanState),
    st.found_EOF < 256 →
    (checkEOFLoop lines n st).found_EOF =
      (st.found_EOF + lines.countP isEOFRecordLine) % 256 := by
  induction lines with
  | nil => intro n st hlt; simp [checkEOFLoop]; omega
  | cons l rest ih =>
    intro n st hlt
    simp only [checkEOFLoop]
    by_cases hE : isEOFRecordLine l
    · rw [if_pos hE, ih (n + 1)
        { last_line := l, EOF_line := l,
          found_EOF := (st.found_EOF + 1) % 256,
          error_line := if st.found_EOF = 0 then n else st.error_line }
        (Nat.mod_lt _ (by norm_num))]
      simp only [List.countP_cons, hE, if_true]
      omega
    · rw [if_neg hE, ih (n + 1) { st with last_line := l } hlt]
      simp [List.countP_cons, hE]

/-- The last line seen by the `checkEOF` loop. -/
theorem checkEOFLoop_last (lines : List (List Char)) : ∀ (n : Nat) (st : EOFScanState),
    (checkEOFLoop lines n st).last_line = lines.getLastD st.last_line := by
  induction lines with
  | nil => intro n st; simp [checkEOFLoop]
  | cons l rest ih =>
    intro n st
    simp only [checkEOFLoop]
    by_cases hE : isEOFRecordLine l
    · rw [if_pos hE, ih, List.getLastD_cons]
    · rw [if_neg hE, ih, List.getLastD_cons]

/-- The stored End-Of-File text after the `checkEOF` loop: the text of the
last occurrence. -/
theorem checkEOFLoop_eofline (lines : List (List Char)) : ∀ (n : Nat) (st : EOFScanState),
    (checkEOFLoop lines n st).EOF_line =
      (lines.filter isEOFRecordLine).getLastD st.EOF_line := by
  induction lines with
  | nil => intro n st; simp [checkEOFLoop]
  | cons l rest ih =>
    intro n st
    simp only [checkEOFLoop]
    by_cases hE : isEOFRecordLine l
    · rw [if_pos hE, ih, List.filter_cons_of_pos hE, List.getLastD_cons]
    · rw [if_neg hE, ih, List.filter_cons_of_neg (by simpa using hE)]

/-- The stored line number after the `checkEOF` loop: that of the first
occurrence, counting from `n`, when the count started at 0.  Below 256
occurrences the `int8_t` counter never wraps back to 0, so the number is
never overwritten by a later occurrence. -/
theorem checkEOFLoop_errline (lines : List (List Char)) : ∀ (n : Nat) (st : EOFScanState),
    st.found_EOF + lines.countP isEOFRecordLine ≤ 255 →
    (checkEOFLoop lines n st).error_line =
      if st.found_EOF = 0 then (lines.findIdx? isEOFRecordLine n).getD st.error_line
      else st.error_line := by
  induction lines with
  | nil => intro n st _; simp [checkEOFLoop]
  | cons l rest ih =>
    intro n st hb
    simp only [checkEOFLoop]
    by_cases hE : isEOFRecordLine l
    · have hc : (l :: rest).countP isEOFRecordLine =
          rest.countP isEOFRecordLine + 1 := by
        simp [List.countP_cons, hE]
      rw [hc] at hb
      have hb' : (st.found_EOF + 1) % 256 + rest.countP isEOFRecordLine ≤ 255 := by
        omega
      rw [if_pos hE, ih (n + 1)
        { last_line := l, EOF_line := l,
          found_EOF := (st.found_EOF + 1) % 256,
          error_line := if st.found_EOF = 0 then n else st.error_line }
        hb']
      simp only [List.findIdx?_cons, hE, if_true]
      rw [if_neg (by omega)]
      by_cases hf : st.found_EOF = 0
      · simp [hf]
      · simp [hf]
    · have hb' : st.found_EOF + rest.countP isEOFRecordLine ≤ 255 := by
        have hc : (l :: rest).countP isEOFRecordLine = rest.countP isEOFRecordLine := by
          simp [List.countP_cons, hE]
        rw [hc] at hb
        exact hb
      rw [if_neg hE, ih (n + 1) { st with last_line := l } hb']
      simp only [List.findIdx?_cons, hE, if_false, Bool.false_eq_true]

set_option maxRecDepth 100000 in
/-- C4 (corrected), counterexample: the occurrence counter `found_EOF` is an
`int8_t` that wraps modulo 256, so a file of 256 End-Of-File lines — count
256, well above the claim's "more than one" — is reported as MissingEOF
(code 1), not DuplicateEOF (code 3). -/
theorem c4_counterexample :
    2 ≤ (List.replicate 256 lineEOFNL).countP isEOFRecordLine ∧
    (checkEOF ⟨[], [], 0, 99⟩ (List.replicate 256 lineEOFNL)).error_code = 1 :=
  ⟨by decide, by decide⟩

/-- C4 (corrected), amended claim: the Pass B terminal-record check returns
MissingEOF (code 1) when no line starts with ":00000001FF"; EOFNotAtEnd
(code 2) at the occurrence's 1-based line number when exactly one such line
occurs but its text differs from the file's last line; success (code 0)
when the one occurrence equals the last line; and DuplicateEOF (code 3) at
the first occurrence's line number when more than one occurs — the last
provided the occurrence count stays below 256, since the `int8_t` counter
`found_EOF` wraps modulo 256. -/
theorem c4_terminal_record_amended (init : EOFScanState) (lines : List (List Char)) :
    (lines.countP isEOFRecordLine = 0 → (checkEOF init lines).error_code = 1) ∧
    (∀ l k, lines.filter isEOFRecordLine = [l] →
      lines.findIdx? isEOFRecordLine = some k →
      lines.getLast? ≠ some l →
      checkEOF init lines = { error_code := 2, error_line := k + 1 }) ∧
    (∀ l, lines.filter isEOFRecordLine = [l] →
      lines.getLast? = some l →
      (checkEOF init lines).error_code = 0) ∧
    (∀ k, 2 ≤ lines.countP isEOFRecordLine →
      lines.countP isEOFRecordLine ≤ 255 →
      lines.findIdx? isEOFRecordLine = some k →
      checkEOF init lines = { error_code := 3, error_line := k + 1 }) := by
  have hfound : (checkEOFLoop lines 1 { init with found_EOF := 0 }).found_EOF
      = lines.countP isEOFRecordLine % 256 := by
    rw [checkEOFLoop_found lines 1 { init with found_EOF := 0 } (by norm_num)]
    simp
  have hlast : (checkEOFLoop lines 1 { init with found_EOF := 0 }).last_line
      = lines.getLastD init.last_line := by
    rw [checkEOFLoop_last]
  have heof : (checkEOFLoop lines 1 { init with found_EOF := 0 }).EOF_line
      = (lines.filter isEOFRecordLine).getLastD init.EOF_line := by
    rw [checkEOFLoop_eofline]
  refine ⟨?_, ?_, ?_, ?_⟩
  · intro h0
    simp only [checkEOF]
    rw [if_pos (by rw [hfound, h0])]
  · intro l k hfil hidx hlastne
    have hcnt : lines.countP isEOFRecordLine = 1 := by
      rw [List.countP_eq_length_filter, hfil]
      rfl
    have herr : (checkEOFLoop lines 1 { init with found_EOF := 0 }).error_line
        = (lines.findIdx? isEOFRecordLine 1).getD init.error_line := by
      rw [checkEOFLoop_errline lines 1 { init with found_EOF := 0 } (by simp; omega)]
      simp
    have hne : lines ≠ [] := by
      intro he
      rw [he] at hfil
      exact absurd hfil (by simp)
    obtain ⟨x, hx⟩ := Option.isSome_iff_exists.mp (List.getLast?_isSome.mpr hne)
    have hlastD : lines.getLastD init.last_line = x := by
      rw [List.getLastD_eq_getLast?, hx]
      rfl
    have hxl : x ≠ l := fun he => hlastne (he ▸ hx)
    have hidx1 : lines.findIdx? isEOFRecordLine 1 = some (k + 1) :=
      findIdxOneBased hidx
    simp only [checkEOF]
    rw [if_neg (by rw [hfound, hcnt]; omega), if_pos (by rw [hfound, hcnt])]
    rw [if_pos (by
      rw [hlast, heof, hlastD, hfil]
      simpa using hxl)]
    rw [herr, hidx1]
    rfl
  · intro l hfil hlast?
    have hcnt : lines.countP isEOFRecordLine = 1 := by
      rw [List.countP_eq_length_filter, hfil]
      rfl
    have hlastD : lines.getLastD init.last_line = l := by
      rw [List.getLastD_eq_getLast?, hlast?]
      rfl
    simp only [checkEOF]
    rw [if_neg (by rw [hfound, hcnt]; omega), if_pos (by rw [hfound, hcnt])]
    rw [if_neg (by
      rw [hlast, heof, hlastD, hfil]
      simp)]
  · intro k h2 h255 hidx
    have herr : (checkEOFLoop lines 1 { init with found_EOF := 0 }).error_line
        = (lines.findIdx? isEOFRecordLine 1).getD init.error_line := by
      rw [checkEOFLoop_errline lines 1 { init with found_EOF := 0 } (by simp; omega)]
      simp
    have hidx1 : lines.findIdx? isEOFRecordLine 1 = some (k + 1) :=
      findIdxOneBased hidx
    simp only [checkEOF]
    rw [if_neg (by rw [hfound]; omega), if_neg (by rw [hfound]; omega)]
    rw [herr, hidx1]
    rfl

/-- C4 witness: a file with no EOF line reports MissingEOF; a sole EOF
record followed by another line reports (2, 1); a sole EOF record as the
last line reports success; two EOF-prefixed lines report (3, 1). -/
theorem c4_terminal_record_witness :
    (checkEOF ⟨[], [], 0, 99⟩ [lineData]).error_code = 1 ∧
    checkEOF ⟨[], [], 0, 99⟩ [lineEOFNL, lineData] =
      { error_code := 2, error_line := 1 } ∧
    (checkEOF ⟨[], [], 0, 99⟩ [lineData, lineEOFNL]).error_code = 0 ∧
    checkEOF ⟨[], [], 0, 99⟩ [lineEOFNL, lineData, lineEOFBare] =
      { error_code := 3, error_line := 1 } := by
  refine ⟨?_, ?_, ?_, ?_⟩
  · exact (c4_terminal_record_amended ⟨[], [], 0, 99⟩ [lineData]).1 (by decide)
  · exact (c4_terminal_record_amended ⟨[], [], 0, 99⟩ [lineEOFNL, lineData]).2.1
      lineEOFNL 0 (by decide) (by decide) (by decide)
  · exact (c4_terminal_record_amended ⟨[], [], 0, 99⟩ [lineData, lineEOFNL]).2.2.1
      lineEOFNL (by decide) (by decide)
  · exact (c4_terminal_record_amended ⟨[], [], 0, 99⟩
      [lineEOFNL, lineData, lineEOFBare]).2.2.2 0 (by decide) (by decide) (by decide)

/-- The `strncmp(s, t, strlen(t)) == 0` test is exactly the prefix test. -/
theorem strncmpZero_prefix (t : List Char) : ∀ s : List Char,
    (strncmpZero s t t.length = true ↔ t <+: s) := by
  induction t with
  | nil => intro s; simp [strncmpZero]
  | cons b t ih =>
    intro s
    cases s with
    | nil => simp [strncmpZero]
    | cons a s =>
      simp only [strncmpZero, List.length_cons, Bool.and_eq_true, decide_eq_true_eq,
        List.cons_prefix_cons, ih s]
      constructor
      · rintro ⟨h1, h2⟩; exact ⟨h1.symm, h2⟩
      · rintro ⟨h1, h2⟩; exact ⟨h1.symm, h2⟩

/-- C10 (confirmed): a line counts as an End-Of-File occurrence in the
Pass B scan exactly when its first 11 characters are ":00000001FF" — that
is, when that literal is a prefix of the line, whatever follows — while the
placement verdict for a sole occurrence compares the full line texts: code 0
exactly when the file's last line is, in full, the occurrence's text. -/
theorem c10_eof_prefix_match :
    (∀ l : List Char, isEOFRecordLine l = true ↔ eofPattern <+: l) ∧
    (∀ (init : EOFScanState) (lines : List (List Char)) (l : List Char),
      lines.filter isEOFRecordLine = [l] →
      ((checkEOF init lines).error_code = 0 ↔ lines.getLast? = some l)) := by
  constructor
  · intro l
    have h : (11 : Nat) = eofPattern.length := rfl
    rw [isEOFRecordLine, h]
    exact strncmpZero_prefix eofPattern l
  · intro init lines l hfil
    have hfound : (checkEOFLoop lines 1 { init with found_EOF := 0 }).found_EOF
        = lines.countP isEOFRecordLine % 256 := by
      rw [checkEOFLoop_found lines 1 { init with found_EOF := 0 } (by norm_num)]
      simp
    have hlast : (checkEOFLoop lines 1 { init with found_EOF := 0 }).last_line
        = lines.getLastD init.last_line := by
      rw [checkEOFLoop_last]
    have heof : (checkEOFLoop lines 1 { init with found_EOF := 0 }).EOF_line
        = (lines.filter isEOFRecordLine).getLastD init.EOF_line := by
      rw [checkEOFLoop_eofline]
    have hcnt : lines.countP isEOFRecordLine = 1 := by
      rw [List.countP_eq_length_filter, hfil]
      rfl
    have hne : lines ≠ [] := by
      intro he
      rw [he] at hfil
      exact absurd hfil (by simp)
    obtain ⟨x, hx⟩ := Option.isSome_iff_exists.mp (List.getLast?_isSome.mpr hne)
    have hlastD : lines.getLastD init.last_line = x := by
      rw [List.getLastD_eq_getLast?, hx]
      rfl
    simp only [checkEOF]
    rw [if_neg (by rw [hfound, hcnt]; omega), if_pos (by rw [hfound, hcnt])]
    constructor
    · intro h0
      by_cases hxl : x = l
      · rw [hxl] at hx
        exact hx
      · rw [if_pos (by
          rw [hlast, heof, hlastD, hfil]
          simpa using hxl)] at h0
        exact absurd h0 (by norm_num)
    · intro hlast?
      have hxl : x = l := by
        rw [hx] at hlast?
        injection hlast?
      rw [if_neg (by
        rw [hlast, heof, hlastD, hfil]
        simp [hxl])]

/-- C10 witness: ":00000001FF" followed by extra characters still counts as
an occurrence, and for the sole occurrence placed last the verdict is 0. -/
theorem c10_eof_prefix_witness :
    isEOFRecordLine ((":00000001FFxyz").toList) = true ∧
    ((checkEOF ⟨[], [], 0, 99⟩ [lineData, lineEOFNL]).error_code = 0 ↔
      [lineData, lineEOFNL].getLast? = some lineEOFNL) := by
  constructor
  · exact (c10_eof_prefix_match.1 ((":00000001FFxyz").toList)).mpr (by decide)
  · exact c10_eof_prefix_match.2 ⟨[], [], 0, 99⟩ [lineData, lineEOFNL] lineEOFNL
      (by decide)

/-! ### C7 and C8 -/

/-- The `%08X`-printed value of a wrapped `int32_t` is the unwrapped value
when that value fits in 32 unsigned bits. -/
theorem toUInt32C_wrap32 {v : Int} (h0 : 0 ≤ v) (h1 : v < 2 ^ 32) :
    toUInt32C (wrap32 v) = v.toNat := by
  unfold toUInt32C wrap32
  omega

/-- A parsed display data cell is its `%02X` value. -/
theorem displayDataCell_eq {junk : Junk} {line : List Char} {bc i d : Nat}
    (hi : i < bc) (h : scanHexAt 2 (line.drop (9 + 2 * i)) = some d) :
    displayDataCell junk line bc i = d := by
  unfold displayDataCell
  rw [if_pos hi, scanHexAtC_agrees h]
  exact Nat.mod_eq_of_lt (lt_of_lt_of_le (scanHexAt_lt h) (by norm_num))

/-- C7 (confirmed): for every Extended Linear Address record (type 0x04)
with data bytes `d0`, `d1`, the resolved absolute address printed by the
display pass equals `base_address + d0 * 0x1000000 + d1 * 0x10000` (the
static `base_address` holding at most a prior Data record's 16-bit address);
in particular, scanning the Data record with address 0x0030 and then the
Extended Linear Address record with data bytes 00 01 resolves the second to
absolute address 0x00010030. -/
theorem c7_linear_address :
    (∀ (junk : Junk) (line : List Char) (base : Int) (bc ad d0 d1 : Nat),
      displayHeader junk line = ⟨bc, ad, 0x04⟩ →
      scanHexAt 2 (line.drop 9) = some d0 →
      scanHexAt 2 (line.drop 11) = some d1 →
      2 ≤ bc →
      0 ≤ base → base ≤ 65535 →
      displayRecordStep junk line base =
        (base, some (base.toNat + d0 * 0x1000000 + d1 * 0x10000))) ∧
    printIntelHexFile junks0 [lineData, lineELA] = ([none, some 0x10030], 0x30) := by
  constructor
  · intro junk line base bc ad d0 d1 hf h0 h1 hbc hb0 hb1
    have hd0 : displayDataCell junk line bc 0 = d0 :=
      displayDataCell_eq (by omega) (by simpa using h0)
    have hd1 : displayDataCell junk line bc 1 = d1 :=
      displayDataCell_eq (by omega) (by simpa using h1)
    have hd0b : d0 ≤ 255 := by
      have := scanHexAt_lt h0
      norm_num at this
      omega
    have hd1b : d1 ≤ 255 := by
      have := scanHexAt_lt h1
      norm_num at this
      omega
    simp only [displayRecordStep, hf, hd0, hd1]
    norm_num
    have hw : toUInt32C (wrap32 (base + (d0 : Int) * 16777216 + (d1 : Int) * 65536)) =
        (base + (d0 : Int) * 16777216 + (d1 : Int) * 65536).toNat := by
      apply toUInt32C_wrap32
      · positivity
      · have c0 : (d0 : Int) ≤ 255 := by exact_mod_cast hd0b
        have c1 : (d1 : Int) ≤ 255 := by exact_mod_cast hd1b
        norm_num
        omega
    rw [hw]
    omega
  · decide

/-- C7 witness: the general Extended Linear Address formula applied at the
fixture record with base 0x0030. -/
theorem c7_linear_address_witness :
    displayRecordStep junk0 lineELA 0x30 = ((0x30 : Int), some 0x10030) := by
  have h := c7_linear_address.1 junk0 lineELA 0x30 2 0 0 1
    (by decide) (by decide) (by decide) (by decide) (by decide) (by decide)
  rw [h]
  decide

/-- C8 (confirmed): the display scan starts from `base_address = 0` (the
static's initializer) and `base_address` is mutated only by Data records
(type 0x00), which set it to the record's raw 16-bit address field; an
Extended Segment Address record (type 0x02) computes absolute address
`base_address + data[0] * 0x1000 + data[1] * 0x10` and leaves `base_address`
unchanged. -/
theorem c8_base_address_frame :
    (∀ (junks : Nat → Junk) (lines : List (List Char)),
      printIntelHexFile junks lines = displayScanFrom junks lines 1 0) ∧
    (∀ (junk : Junk) (line : List Char) (base : Int),
      (displayHeader junk line).record_type ≠ 0x00 →
      (displayRecordStep junk line base).1 = base) ∧
    (∀ (junk : Junk) (line : List Char) (base : Int) (bc ad : Nat),
      displayHeader junk line = ⟨bc, ad, 0x00⟩ →
      ad < 2 ^ 16 →
      displayRecordStep junk line base = ((ad : Int), none)) ∧
    (∀ (junk : Junk) (line : List Char) (base : Int) (bc ad d0 d1 : Nat),
      displayHeader junk line = ⟨bc, ad, 0x02⟩ →
      scanHexAt 2 (line.drop 9) = some d0 →
      scanHexAt 2 (line.drop 11) = some d1 →
      2 ≤ bc →
      0 ≤ base → base ≤ 65535 →
      displayRecordStep junk line base =
        (base, some (base.toNat + d0 * 0x1000 + d1 * 0x10))) := by
  refine ⟨?_, ?_, ?_, ?_⟩
  · intro junks lines
    rfl
  · intro junk line base hne
    simp only [displayRecordStep]
    rw [if_neg (by simpa using hne)]
    by_cases h2 : (displayHeader junk line).record_type = 0x02
    · rw [if_pos h2]
    · rw [if_neg h2]
      by_cases h4 : (displayHeader junk line).record_type = 0x04
      · rw [if_pos h4]
      · rw [if_neg h4]
  · intro junk line base bc ad hf had
    simp only [displayRecordStep, hf]
    norm_num
    exact toInt32_small (by norm_num at had ⊢; omega)
  · intro junk line base bc ad d0 d1 hf h0 h1 hbc hb0 hb1
    have hd0 : displayDataCell junk line bc 0 = d0 :=
      displayDataCell_eq (by omega) (by simpa using h0)
    have hd1 : displayDataCell junk line bc 1 = d1 :=
      displayDataCell_eq (by omega) (by simpa using h1)
    have hd0b : d0 ≤ 255 := by
      have := scanHexAt_lt h0
      norm_num at this
      omega
    have hd1b : d1 ≤ 255 := by
      have := scanHexAt_lt h1
      norm_num at this
      omega
    simp only [displayRecordStep, hf, hd0, hd1]
    norm_num
    have hw : toUInt32C (wrap32 (base + (d0 : Int) * 4096 + (d1 : Int) * 16)) =
        (base + (d0 : Int) * 4096 + (d1 : Int) * 16).toNat := by
      apply toUInt32C_wrap32
      · positivity
      · have c0 : (d0 : Int) ≤ 255 := by exact_mod_cast hd0b
        have c1 : (d1 : Int) ≤ 255 := by exact_mod_cast hd1b
        norm_num
        omega
    rw [hw]
    omega

/-- C8 witness: the Extended Segment Address fixture leaves base 0x30
unchanged and resolves 0x30 + 0x12 * 0x1000 + 0x00 * 0x10; a Data record
sets the base to its address field; a non-Data record leaves it unchanged;
the scan starts at 0. -/
theorem c8_base_address_witness :
    printIntelHexFile junks0 [] = displayScanFrom junks0 [] 1 0 ∧
    (displayRecordStep junk0 lineELA 5).1 = 5 ∧
    displayRecordStep junk0 lineData 5 = ((0x30 : Int), none) ∧
    displayRecordStep junk0 lineESA 0x30 = ((0x30 : Int), some 0x12030) := by
  refine ⟨c8_base_address_frame.1 junks0 [], ?_, ?_, ?_⟩
  · exact c8_base_address_frame.2.1 junk0 lineELA 5 (by decide)
  · exact c8_base_address_frame.2.2.1 junk0 lineData 5 3 0x30 (by decide) (by decide)
  · have h := c8_base_address_frame.2.2.2 junk0 lineESA 0x30 2 0 0x12 0
      (by decide) (by decide) (by decide) (by decide) (by decide) (by decide)
    rw [h]
    decide

end HexCheck
